import Mathlib

/-!
AudioNav announcer: cyclic announcement queue, playback servicing, number encoder

A shallow embedding of `src/Announcer.hpp` (class `Announcer`) together with the
record `AudioNav` of `src/AudioNav2.h`, and of class `RollingAverage` of
`src/RollingAverage.hpp`.

Conventions of the embedding

* The member variables of `Announcer` and the global ESP8266Audio objects it drives
  (`file`, `id3`, `mp3`) form one record, `Announcer`; every method is a function
  from the record before the call to the record after it.
* The ESP8266Audio library is not part of the repository.  What it answers
  (`mp3->loop()`, `mp3->begin(..)`) is an input of the method that asks, and the
  decoder itself is a `running` flag: set by a successful `begin`, cleared by
  `stop`, read by `isRunning`.  Every call made on the library, and the one
  unconditional diagnostic line, is appended to the `events` trace.
* An `int` is a whole number of the 32-bit range.  The two queue indices stay in
  `0..127` and are computed with the C remainder (`Int.tmod`); every other `int`
  result that can leave the range (the queue length after `++`, `digit + 50` and
  `digit * divisor`) goes through `toInt32`, the two's complement wrap-around.
* In `announceNumber` a `float` is a rational that binary32 holds, and every
  `float` or `double` operation rounds its exact result to the nearest value of its
  type, ties to even (`toFloat`, `toDouble`).  Infinities and NaN are not modelled.
  Elsewhere (the comparisons of the reports, `RollingAverage`) `float` values are
  exact rationals.
* `ANN_DEBUG` is `0` in `AudioNav2.h`, so the lines guarded by it are absent.
-/

namespace AudioNav2

/-- Modelled from the spec: `Announcer.h`, the vocabulary header that defines the
clip-name constants and the `speak` table, is not among the sources.  A clip is
identified by the name the code uses for it: one of the constants, or the entry
of the `speak` table at a given index. -/
inductive Clip where
  | HEADING
  | COURSE
  | SPEED
  | KNOTS
  | CURRENTLY_STATIONARY
  | SATELLITES_ACQUIRED
  | NO_GPS_FIX_AVAILABLE
  | FIX_QUALITY_EXCELLENT
  | FIX_QUALITY_GOOD
  | FIX_QUALITY_MODERATE
  | FIX_QUALITY_FAIR
  | FIX_QUALITY_POOR
  | speak (index : Int)
  deriving DecidableEq, Repr

/-- An `AudioFileSourceSPIFFS` object: which `new` created it, and the file it reads. -/
structure FileSource where
  serial : Nat
  name : Clip
  deriving DecidableEq, Repr

/-- What the announcer does to the outside world, in the order it does it. -/
inductive Event where
  | loop (result : Bool)
  | stop
  | deleteFile (f : FileSource)
  | newFile (f : FileSource)
  | begin (id3 : FileSource) (result : Bool)
  | errorCode300
  deriving DecidableEq, Repr

/-- `ANNOUNCEMENT_BUFFER_LENGTH`. -/
def ANNOUNCEMENT_BUFFER_LENGTH : Int := 128

/-- The member variables of `class Announcer` (the cyclic queue) and the global
library objects `file`, `id3` (by the file source it wraps) and `mp3` (by its
running flag). -/
structure Announcer where
  announcementQueue : Int → Clip
  headQueueIndex : Int
  tailQueueIndex : Int
  announcementQueueLength : Int
  file : FileSource
  id3 : FileSource
  running : Bool
  allocated : Nat
  events : List Event

/-- A freshly constructed `Announcer`: indices and length are `0`, the buffer holds
whatever it holds, and the library objects are in some state. -/
def Announcer.init (buffer : Int → Clip) (file id3 : FileSource) (running : Bool)
    (allocated : Nat) : Announcer :=
  { announcementQueue := buffer
    headQueueIndex := 0
    tailQueueIndex := 0
    announcementQueueLength := 0
    file := file
    id3 := id3
    running := running
    allocated := allocated
    events := [] }

/-- `Announcer::begin`: creates the file source, the ID3 wrapper over it and the
decoder, and starts the decoder on the wrapper. -/
def Announcer.begin (s : Announcer) (mp3Filename : Clip) (beginResult : Bool) : Announcer :=
  let f : FileSource := { serial := s.allocated, name := mp3Filename }
  { s with
    file := f
    id3 := f
    allocated := s.allocated + 1
    running := beginResult
    events := s.events ++ [Event.newFile f, Event.begin f beginResult] }

/-- The value a whole number takes when it is stored in a 32-bit two's complement
`int`: itself when it fits, and otherwise what is left of it modulo `2^32`. -/
def toInt32 (z : Int) : Int :=
  (z + 2147483648) % 4294967296 - 2147483648

/-- `Announcer::cueAnnouncement`.  The length is a 32-bit `int` incremented without a
guard. -/
def cueAnnouncement (s : Announcer) (message : Clip) : Announcer :=
  let s1 := { s with
    announcementQueue := Function.update s.announcementQueue s.tailQueueIndex message }
  let s2 := { s1 with announcementQueueLength := toInt32 (s1.announcementQueueLength + 1) }
  let s3 := { s2 with
    tailQueueIndex := Int.tmod (s2.tailQueueIndex + 1) ANNOUNCEMENT_BUFFER_LENGTH }
  if s3.announcementQueueLength > ANNOUNCEMENT_BUFFER_LENGTH then
    { s3 with events := s3.events ++ [Event.errorCode300] }
  else s3

/-- `Announcer::serviceQueue`; `loopResult` is what `mp3->loop()` answers if it is
asked, `beginResult` whether `mp3->begin(id3, out)` succeeds if it is called. -/
def serviceQueue (s : Announcer) (loopResult beginResult : Bool) : Announcer :=
  if s.running then
    let s1 := { s with events := s.events ++ [Event.loop loopResult] }
    if !loopResult then
      { s1 with running := false, events := s1.events ++ [Event.stop] }
    else s1
  else
    if s.announcementQueueLength > 0 then
      let mp3Filename := s.announcementQueue s.headQueueIndex
      let s1 := { s with events := s.events ++ [Event.deleteFile s.file] }
      let f : FileSource := { serial := s1.allocated, name := mp3Filename }
      let s2 := { s1 with
        file := f
        allocated := s1.allocated + 1
        events := s1.events ++ [Event.newFile f] }
      let s3 := { s2 with
        running := beginResult
        events := s2.events ++ [Event.begin s2.id3 beginResult] }
      let s4 := { s3 with
        headQueueIndex := Int.tmod (s3.headQueueIndex + 1) ANNOUNCEMENT_BUFFER_LENGTH }
      { s4 with announcementQueueLength := s4.announcementQueueLength - 1 }
    else s

/-- One call on the announcer's queue interface. -/
inductive Op where
  | cue (message : Clip)
  | service (loopResult beginResult : Bool)
  deriving DecidableEq, Repr

/-- Performs one call. -/
def step (s : Announcer) : Op → Announcer
  | Op.cue m => cueAnnouncement s m
  | Op.service l b => serviceQueue s l b

/-- Performs the calls of `ops`, first to last. -/
def run (s : Announcer) (ops : List Op) : Announcer :=
  ops.foldl step s

/-- The messages passed to `cueAnnouncement` in `ops`, in call order. -/
def enqueued : List Op → List Clip
  | [] => []
  | Op.cue m :: ops => m :: enqueued ops
  | Op.service _ _ :: ops => enqueued ops

/-- The clips taken off the queue: the names of the file sources opened, in order. -/
def dequeued : List Event → List Clip
  | [] => []
  | Event.newFile f :: es => f.name :: dequeued es
  | _ :: es => dequeued es

/-- Calls `cueAnnouncement` on each clip of the list, first to last. -/
def cueAll (s : Announcer) (clips : List Clip) : Announcer :=
  clips.foldl cueAnnouncement s

/-- The clips waiting in the queue, oldest first: the `announcementQueueLength`
slots of the cyclic buffer from `headQueueIndex` on. -/
def pending (s : Announcer) : List Clip :=
  (List.range s.announcementQueueLength.toNat).map
    (fun (k : Nat) => s.announcementQueue ((s.headQueueIndex + (k : Int)) % 128))

/-- The queue is in a consistent state without overflow: both indices are inside
the buffer, the length is between `0` and the capacity, and the tail is the head
plus the length, cyclically. -/
def Consistent (s : Announcer) : Prop :=
  0 ≤ s.headQueueIndex ∧ s.headQueueIndex < 128 ∧
  0 ≤ s.announcementQueueLength ∧ s.announcementQueueLength ≤ 128 ∧
  s.tailQueueIndex = (s.headQueueIndex + s.announcementQueueLength) % 128

/-- An announcer with an empty queue and an idle decoder, for worked examples. -/
def idleEmpty : Announcer :=
  Announcer.init (fun _ => Clip.KNOTS) ⟨0, Clip.KNOTS⟩ ⟨0, Clip.KNOTS⟩ false 1

/-- `MAX_BUFFER_SIZE` of `RollingAverage.hpp`. -/
def MAX_BUFFER_SIZE : Int := 50

/-- The member variables of `class RollingAverage`; `float` values are exact
rationals. -/
structure RollingAverage where
  rollingAverageLength : Int
  buffer : Int → ℚ
  index : Int
  rollingTotal : ℚ

/-- The constructor `RollingAverage(int length)`; `memory` is what the storage of
`buffer` holds when the object is constructed.  The statement
`buffer[MAX_BUFFER_SIZE] = {0}` assigns to the one element of index 50 and leaves
the elements `0..49` as they are. -/
def RollingAverage.construct (memory : Int → ℚ) (length : Int) : RollingAverage :=
  { rollingAverageLength := length
    buffer := Function.update memory MAX_BUFFER_SIZE 0
    index := 0
    rollingTotal := 0 }

/-- `RollingAverage::updateRav`: the object after the call and the value returned. -/
def RollingAverage.updateRav (r : RollingAverage) (newValue : ℚ) : RollingAverage × ℚ :=
  let r1 := { r with rollingTotal := r.rollingTotal - r.buffer r.index }
  let r2 := { r1 with rollingTotal := r1.rollingTotal + newValue }
  let r3 := { r2 with buffer := Function.update r2.buffer r2.index newValue }
  let r4 := { r3 with index := Int.tmod (r3.index + 1) r3.rollingAverageLength }
  (r4, r4.rollingTotal / (r4.rollingAverageLength : ℚ))

/-- The object after `updateRav` has been called on each value of the list, first to
last. -/
def RollingAverage.feed (r : RollingAverage) (xs : List ℚ) : RollingAverage :=
  xs.foldl (fun t x => (t.updateRav x).1) r

/-- The object holds the window `w` of its last `N` readings, oldest first: `w` lies
in the cyclic buffer from `index` on, and `rollingTotal` is both the sum of `w` and
the sum of the first `N` buffer elements. -/
def Windowed (r : RollingAverage) (N : Nat) (w : List ℚ) : Prop :=
  r.rollingAverageLength = (N : Int) ∧ 0 ≤ r.index ∧ r.index < (N : Int) ∧
  w.length = N ∧ r.rollingTotal = w.sum ∧
  (∀ j : Nat, j < N → w[j]? = some (r.buffer ((r.index + (j : Int)) % (N : Int)))) ∧
  r.rollingTotal = ∑ i in Finset.range N, r.buffer (i : Int)

/-! ## The cyclic queue -/

theorem tmod_succ_128 (a : Int) (h : 0 ≤ a) :
    Int.tmod (a + 1) ANNOUNCEMENT_BUFFER_LENGTH = (a + 1) % 128 := by
  unfold ANNOUNCEMENT_BUFFER_LENGTH
  exact Int.tmod_eq_emod (by omega) (by omega)

theorem dequeued_append (a b : List Event) :
    dequeued (a ++ b) = dequeued a ++ dequeued b := by
  induction a with
  | nil => rfl
  | cons e es ih => cases e <;> simp [dequeued, ih]

theorem consistent_init (buffer : Int → Clip) (file id3 : FileSource) (running : Bool)
    (allocated : Nat) : Consistent (Announcer.init buffer file id3 running allocated) := by
  simp [Consistent, Announcer.init]

theorem pending_init (buffer : Int → Clip) (file id3 : FileSource) (running : Bool)
    (allocated : Nat) : pending (Announcer.init buffer file id3 running allocated) = [] := by
  simp [pending, Announcer.init]

theorem toInt32_of_fits (z : Int) (h0 : -2147483648 ≤ z) (h1 : z < 2147483648) :
    toInt32 z = z := by
  unfold toInt32; omega

theorem cue_length (s : Announcer) (m : Clip) :
    (cueAnnouncement s m).announcementQueueLength =
      toInt32 (s.announcementQueueLength + 1) := by
  unfold cueAnnouncement
  simp only
  split <;> rfl

theorem cue_length_of_fits (s : Announcer) (m : Clip)
    (h0 : -2147483648 ≤ s.announcementQueueLength + 1)
    (h1 : s.announcementQueueLength + 1 < 2147483648) :
    (cueAnnouncement s m).announcementQueueLength = s.announcementQueueLength + 1 := by
  rw [cue_length, toInt32_of_fits _ h0 h1]

/-- Below capacity, `cueAnnouncement` keeps the queue consistent, appends the
message to the pending clips and reports nothing. -/
theorem cue_below_capacity (s : Announcer) (m : Clip) (hs : Consistent s)
    (hlen : s.announcementQueueLength < 128) :
    Consistent (cueAnnouncement s m) ∧ pending (cueAnnouncement s m) = pending s ++ [m] ∧
      (cueAnnouncement s m).events = s.events := by
  obtain ⟨h0, h1, l0, l1, ht⟩ := hs
  have htail0 : 0 ≤ s.tailQueueIndex := by omega
  have hno : ¬ (s.announcementQueueLength + 1 > ANNOUNCEMENT_BUFFER_LENGTH) := by
    unfold ANNOUNCEMENT_BUFFER_LENGTH; omega
  have hcue : cueAnnouncement s m =
      { s with
        announcementQueue := Function.update s.announcementQueue s.tailQueueIndex m
        announcementQueueLength := s.announcementQueueLength + 1
        tailQueueIndex := (s.tailQueueIndex + 1) % 128 } := by
    have hfit := toInt32_of_fits (s.announcementQueueLength + 1) (by omega) (by omega)
    unfold cueAnnouncement
    simp only [hfit, hno, if_false, tmod_succ_128 _ htail0]
  rw [hcue]
  refine ⟨?_, ?_, rfl⟩
  · refine ⟨h0, h1, ?_, ?_, ?_⟩ <;> simp only <;> omega
  · obtain ⟨n, hn⟩ := Int.eq_ofNat_of_zero_le l0
    have hn1 : (s.announcementQueueLength + 1).toNat = n + 1 := by omega
    have hn0 : s.announcementQueueLength.toNat = n := by omega
    simp only [pending, hn1, hn0, List.range_succ, List.map_append, List.map_cons, List.map_nil]
    congr 1
    · apply List.map_congr_left
      intro k hk
      have hk' : k < n := List.mem_range.mp hk
      apply Function.update_noteq
      omega
    · have : (s.headQueueIndex + (n : Int)) % 128 = s.tailQueueIndex := by omega
      rw [this, Function.update_same]

/-- While the decoder runs, `serviceQueue` leaves the queue as it is. -/
theorem service_running (s : Announcer) (l b : Bool) (hr : s.running = true) :
    (serviceQueue s l b).announcementQueue = s.announcementQueue ∧
      (serviceQueue s l b).headQueueIndex = s.headQueueIndex ∧
      (serviceQueue s l b).tailQueueIndex = s.tailQueueIndex ∧
      (serviceQueue s l b).announcementQueueLength = s.announcementQueueLength ∧
      dequeued (serviceQueue s l b).events = dequeued s.events := by
  unfold serviceQueue
  cases l <;> simp [hr, dequeued_append, dequeued]

/-- With the decoder idle and a clip waiting, `serviceQueue` takes the oldest
pending clip. -/
theorem service_idle (s : Announcer) (l b : Bool) (hs : Consistent s)
    (hr : s.running = false) (hlen : 0 < s.announcementQueueLength) :
    Consistent (serviceQueue s l b) ∧
      dequeued (serviceQueue s l b).events ++ pending (serviceQueue s l b) =
        dequeued s.events ++ pending s := by
  obtain ⟨h0, h1, l0, l1, ht⟩ := hs
  have hsv : serviceQueue s l b =
      { s with
        file := { serial := s.allocated, name := s.announcementQueue s.headQueueIndex }
        allocated := s.allocated + 1
        running := b
        events := s.events ++ [Event.deleteFile s.file] ++
          [Event.newFile { serial := s.allocated, name := s.announcementQueue s.headQueueIndex }]
          ++ [Event.begin s.id3 b]
        headQueueIndex := (s.headQueueIndex + 1) % 128
        announcementQueueLength := s.announcementQueueLength - 1 } := by
    unfold serviceQueue
    simp only [hr, hlen, gt_iff_lt, if_true, tmod_succ_128 _ h0]
    rfl
  rw [hsv]
  constructor
  · refine ⟨?_, ?_, ?_, ?_, ?_⟩ <;> simp only <;> omega
  · obtain ⟨n, hn⟩ := Int.eq_ofNat_of_zero_le (show 0 ≤ s.announcementQueueLength - 1 by omega)
    have hn1 : s.announcementQueueLength.toNat = n + 1 := by omega
    have hn0 : (s.announcementQueueLength - 1).toNat = n := by omega
    simp only [pending, hn1, hn0, dequeued_append, dequeued, List.range_succ_eq_map,
      List.map_cons, List.map_map, List.append_assoc, List.nil_append, List.append_nil,
      List.singleton_append]
    congr 2
    · simp [Int.emod_eq_of_lt h0 h1]
    · apply List.map_congr_left
      intro k _
      simp only [Function.comp, Nat.succ_eq_add_one, Nat.cast_add, Nat.cast_one]
      congr 1
      omega

/-- One call that leaves at most 128 clips waiting keeps the queue consistent, and
the clips taken so far followed by the clips waiting are the clips taken before
followed by those that waited and the new one, if any. -/
theorem step_fifo (s : Announcer) (op : Op) (hs : Consistent s)
    (hle : (step s op).announcementQueueLength ≤ 128) :
    Consistent (step s op) ∧
      dequeued (step s op).events ++ pending (step s op) =
        dequeued s.events ++ pending s ++ enqueued [op] := by
  cases op with
  | cue m =>
    simp only [step] at hle ⊢
    have hb := hs.2.2.1
    have hb2 := hs.2.2.2.1
    rw [cue_length_of_fits s m (by omega) (by omega)] at hle
    obtain ⟨hc, hp, he⟩ := cue_below_capacity s m hs (by omega)
    exact ⟨hc, by simp [hp, he, enqueued]⟩
  | service l b =>
    simp only [step, enqueued, List.append_nil]
    cases hr : s.running with
    | true =>
      obtain ⟨hq, hh, ht, hl, hd⟩ := service_running s l b hr
      refine ⟨?_, ?_⟩
      · unfold Consistent; rw [hh, ht, hl]; exact hs
      · rw [hd]; simp only [pending, hq, hh, hl]
    | false =>
      by_cases hlen : 0 < s.announcementQueueLength
      · exact service_idle s l b hs hr hlen
      · have : serviceQueue s l b = s := by
          unfold serviceQueue; simp [hr, hlen]
        rw [this]; exact ⟨hs, rfl⟩

theorem run_append (s : Announcer) (a b : List Op) : run s (a ++ b) = run (run s a) b := by
  unfold run
  exact List.foldl_append _ _ _ _

theorem enqueued_append (a b : List Op) : enqueued (a ++ b) = enqueued a ++ enqueued b := by
  induction a with
  | nil => rfl
  | cons op ops ih => cases op <;> simp [enqueued, ih]

theorem run_fifo (ops : List Op) : ∀ (s : Announcer), Consistent s →
    (∀ k, (run s (ops.take k)).announcementQueueLength ≤ 128) →
    Consistent (run s ops) ∧
      dequeued (run s ops).events ++ pending (run s ops) =
        dequeued s.events ++ pending s ++ enqueued ops := by
  induction ops with
  | nil => intro s hs _; exact ⟨hs, by simp [run, enqueued]⟩
  | cons op ops ih =>
    intro s hs h
    have h1 : (step s op).announcementQueueLength ≤ 128 := by
      simpa [run] using h 1
    obtain ⟨hc, hp⟩ := step_fifo s op hs h1
    have h2 : ∀ k, (run (step s op) (ops.take k)).announcementQueueLength ≤ 128 := by
      intro k
      simpa [run] using h (k + 1)
    obtain ⟨hc', hp'⟩ := ih (step s op) hc h2
    refine ⟨by simpa [run] using hc', ?_⟩
    have : enqueued (op :: ops) = enqueued [op] ++ enqueued ops :=
      enqueued_append [op] ops
    simp only [run, List.foldl_cons] at hp' ⊢
    rw [hp', hp, this]
    simp [List.append_assoc]

/-- C1: starting from the empty queue, for every sequence of `cueAnnouncement` and
`serviceQueue` calls after each of which at most 128 clips are waiting, the clips
enqueued are, in order, the clips dequeued so far followed by the clips still
waiting; so the k-th clip dequeued is the k-th clip enqueued, however often the
indices have wrapped around the buffer. -/
theorem fifo_order (buffer : Int → Clip) (file id3 : FileSource) (running : Bool)
    (allocated : Nat) (ops : List Op)
    (h : ∀ k, (run (Announcer.init buffer file id3 running allocated)
      (ops.take k)).announcementQueueLength ≤ 128) :
    enqueued ops =
        dequeued (run (Announcer.init buffer file id3 running allocated) ops).events ++
          pending (run (Announcer.init buffer file id3 running allocated) ops) ∧
      ∀ (k : Nat) (c : Clip),
        (dequeued (run (Announcer.init buffer file id3 running allocated) ops).events)[k]? =
            some c →
          (enqueued ops)[k]? = some c := by
  obtain ⟨_, hp⟩ := run_fifo ops _ (consistent_init buffer file id3 running allocated) h
  have heq : enqueued ops =
      dequeued (run (Announcer.init buffer file id3 running allocated) ops).events ++
        pending (run (Announcer.init buffer file id3 running allocated) ops) := by
    rw [hp, pending_init]
    simp [Announcer.init, dequeued]
  refine ⟨heq, ?_⟩
  intro k c hk
  rw [heq]
  have hlt : k < (dequeued
      (run (Announcer.init buffer file id3 running allocated) ops).events).length := by
    by_contra hge
    rw [List.getElem?_eq_none (by omega)] at hk
    cases hk
  rw [List.getElem?_append_left hlt]
  exact hk

/-- Two clips are enqueued, the first is taken and played to its end, the second is
taken: they come out in the order they went in. -/
theorem fifo_order_witness :
    (∀ k, (run (Announcer.init (fun _ => Clip.KNOTS) ⟨0, Clip.KNOTS⟩ ⟨0, Clip.KNOTS⟩ false 1)
      ([Op.cue Clip.HEADING, Op.cue (Clip.speak 7), Op.service true true,
        Op.service false true, Op.service true true].take k)).announcementQueueLength ≤ 128) ∧
    dequeued (run (Announcer.init (fun _ => Clip.KNOTS) ⟨0, Clip.KNOTS⟩ ⟨0, Clip.KNOTS⟩ false 1)
      [Op.cue Clip.HEADING, Op.cue (Clip.speak 7), Op.service true true,
        Op.service false true, Op.service true true]).events = [Clip.HEADING, Clip.speak 7] ∧
    ∀ (k : Nat) (c : Clip),
      (dequeued (run (Announcer.init (fun _ => Clip.KNOTS) ⟨0, Clip.KNOTS⟩ ⟨0, Clip.KNOTS⟩
        false 1) [Op.cue Clip.HEADING, Op.cue (Clip.speak 7), Op.service true true,
          Op.service false true, Op.service true true]).events)[k]? = some c →
        (enqueued [Op.cue Clip.HEADING, Op.cue (Clip.speak 7), Op.service true true,
          Op.service false true, Op.service true true])[k]? = some c := by
  have hk : ∀ k, (run (Announcer.init (fun _ => Clip.KNOTS) ⟨0, Clip.KNOTS⟩ ⟨0, Clip.KNOTS⟩
      false 1) ([Op.cue Clip.HEADING, Op.cue (Clip.speak 7), Op.service true true,
        Op.service false true, Op.service true true].take k)).announcementQueueLength
      ≤ 128 := by
    intro k
    match k with
    | 0 => decide
    | 1 => decide
    | 2 => decide
    | 3 => decide
    | 4 => decide
    | k + 5 => simp only [List.take_succ_cons, List.take_nil]; decide
  exact ⟨hk, by decide, (fifo_order _ _ _ _ _ _ hk).2⟩

/-- C2: 129 `cueAnnouncement` calls on the empty queue with no `serviceQueue` call
between them leave `announcementQueueLength` at 129, above the capacity of 128; the
last call writes the overrun diagnostic and keeps the clip all the same. -/
theorem length_exceeds_capacity (buffer : Int → Clip) (file id3 : FileSource)
    (running : Bool) (allocated : Nat) (c : Clip) :
    (run (Announcer.init buffer file id3 running allocated)
        (List.replicate 129 (Op.cue c))).announcementQueueLength = 129 ∧
      (run (Announcer.init buffer file id3 running allocated)
        (List.replicate 129 (Op.cue c))).events = [Event.errorCode300] := by
  have key : ∀ (n : Nat) (s : Announcer), 0 ≤ s.announcementQueueLength →
      s.announcementQueueLength + n ≤ 128 →
      (run s (List.replicate n (Op.cue c))).announcementQueueLength =
          s.announcementQueueLength + n ∧
        (run s (List.replicate n (Op.cue c))).events = s.events := by
    intro n
    induction n with
    | zero => intro s _ _; simp [run]
    | succ n ih =>
      intro s hs0 hs
      push_cast at hs
      have hl := cue_length_of_fits s c (by omega) (by omega)
      have hno : ¬ (toInt32 (s.announcementQueueLength + 1) > ANNOUNCEMENT_BUFFER_LENGTH) := by
        rw [toInt32_of_fits _ (by omega) (by omega)]
        unfold ANNOUNCEMENT_BUFFER_LENGTH; omega
      have he : (cueAnnouncement s c).events = s.events := by
        unfold cueAnnouncement; simp only [hno, if_false]
      obtain ⟨h1, h2⟩ := ih (cueAnnouncement s c) (by rw [hl]; omega) (by rw [hl]; omega)
      simp only [run, List.replicate_succ, List.foldl_cons, step] at h1 h2 ⊢
      rw [h1, h2, hl, he]
      exact ⟨by push_cast; ring, rfl⟩
  obtain ⟨h1, h2⟩ := key 128 (Announcer.init buffer file id3 running allocated)
    (by simp [Announcer.init]) (by simp [Announcer.init])
  have hsplit : List.replicate 129 (Op.cue c) = List.replicate 128 (Op.cue c) ++ [Op.cue c] := by
    rw [← List.replicate_succ']
  rw [hsplit, run_append]
  generalize run (Announcer.init buffer file id3 running allocated)
    (List.replicate 128 (Op.cue c)) = t at h1 h2 ⊢
  change (cueAnnouncement t c).announcementQueueLength = 129 ∧
    (cueAnnouncement t c).events = [Event.errorCode300]
  have ht : t.announcementQueueLength = 128 := by
    rw [h1]; simp [Announcer.init]
  have hev : t.events = [] := by
    rw [h2]; rfl
  unfold cueAnnouncement
  simp [ht, hev, ANNOUNCEMENT_BUFFER_LENGTH, toInt32]

/-! ## The number encoder -/

theorem service_dequeue (s : Announcer) (l b : Bool) (hr : s.running = false)
    (hlen : 0 < s.announcementQueueLength) :
    serviceQueue s l b =
      { s with
        file := { serial := s.allocated, name := s.announcementQueue s.headQueueIndex }
        allocated := s.allocated + 1
        running := b
        events := s.events ++
          [Event.deleteFile s.file,
            Event.newFile { serial := s.allocated, name := s.announcementQueue s.headQueueIndex },
            Event.begin s.id3 b]
        headQueueIndex := Int.tmod (s.headQueueIndex + 1) 128
        announcementQueueLength := s.announcementQueueLength - 1 } := by
  unfold serviceQueue
  simp only [hr, hlen, gt_iff_lt, if_true, ANNOUNCEMENT_BUFFER_LENGTH, List.append_assoc,
    List.singleton_append]
  rfl

theorem service_nothing (s : Announcer) (l b : Bool) (hr : s.running = false)
    (hlen : s.announcementQueueLength ≤ 0) : serviceQueue s l b = s := by
  unfold serviceQueue
  simp [hr, not_lt.mpr hlen]

/-- C9: a `serviceQueue` call made while the decoder runs leaves the buffer, both
indices and the length as they are, and its only calls on the decoder are `loop`
and, when `loop` answers false, `stop`: `begin` is not called.  When `loop` answers
true the decoder keeps running.  When `loop` answers false the decoder is stopped,
and the very next `serviceQueue` call, if a clip is waiting, opens the clip at the
head, calls `begin`, advances the head by one modulo 128 (C remainder) and takes
one off the length. -/
theorem service_while_running (s : Announcer) (l b : Bool) (hr : s.running = true) :
    (serviceQueue s l b).announcementQueue = s.announcementQueue ∧
    (serviceQueue s l b).headQueueIndex = s.headQueueIndex ∧
    (serviceQueue s l b).tailQueueIndex = s.tailQueueIndex ∧
    (serviceQueue s l b).announcementQueueLength = s.announcementQueueLength ∧
    (serviceQueue s l b).events =
      s.events ++ (if l then [Event.loop true] else [Event.loop false, Event.stop]) ∧
    (l = true → (serviceQueue s l b).running = true) ∧
    (l = false → (serviceQueue s l b).running = false ∧
      ∀ l2 b2 : Bool, 0 < s.announcementQueueLength →
        (serviceQueue (serviceQueue s l b) l2 b2).file.name =
            s.announcementQueue s.headQueueIndex ∧
          (serviceQueue (serviceQueue s l b) l2 b2).events =
            (serviceQueue s l b).events ++
              [Event.deleteFile s.file,
                Event.newFile
                  { serial := s.allocated, name := s.announcementQueue s.headQueueIndex },
                Event.begin s.id3 b2] ∧
          (serviceQueue (serviceQueue s l b) l2 b2).headQueueIndex =
            Int.tmod (s.headQueueIndex + 1) 128 ∧
          (0 ≤ s.headQueueIndex →
            (serviceQueue (serviceQueue s l b) l2 b2).headQueueIndex =
              (s.headQueueIndex + 1) % 128) ∧
          (serviceQueue (serviceQueue s l b) l2 b2).announcementQueueLength =
            s.announcementQueueLength - 1 ∧
          (serviceQueue (serviceQueue s l b) l2 b2).running = b2) := by
  cases l with
  | true =>
    have h : serviceQueue s true b = { s with events := s.events ++ [Event.loop true] } := by
      unfold serviceQueue; simp [hr]
    rw [h]
    exact ⟨rfl, rfl, rfl, rfl, rfl, fun _ => hr, fun h => Bool.noConfusion h⟩
  | false =>
    have h : serviceQueue s false b =
        { s with running := false, events := s.events ++ [Event.loop false, Event.stop] } := by
      unfold serviceQueue; simp [hr]
    rw [h]
    refine ⟨rfl, rfl, rfl, rfl, rfl, fun h => Bool.noConfusion h, fun _ => ⟨rfl, ?_⟩⟩
    intro l2 b2 hlen
    rw [service_dequeue
      { s with running := false, events := s.events ++ [Event.loop false, Event.stop] }
      l2 b2 rfl hlen]
    refine ⟨rfl, rfl, rfl, ?_, rfl, rfl⟩
    intro h0
    exact @Int.tmod_eq_emod (s.headQueueIndex + 1) 128 (by omega) (by omega)

/-- Two clips are enqueued and the first is started; the next call finds the
decoder running. -/
theorem service_while_running_witness :
    (run idleEmpty [Op.cue Clip.HEADING, Op.cue (Clip.speak 7), Op.service true true]).running
        = true ∧
    (serviceQueue (run idleEmpty [Op.cue Clip.HEADING, Op.cue (Clip.speak 7),
        Op.service true true]) false true).running = false ∧
    (serviceQueue (serviceQueue (run idleEmpty [Op.cue Clip.HEADING, Op.cue (Clip.speak 7),
        Op.service true true]) false true) true true).file.name = Clip.speak 7 ∧
    (serviceQueue (serviceQueue (run idleEmpty [Op.cue Clip.HEADING, Op.cue (Clip.speak 7),
        Op.service true true]) false true) true true).headQueueIndex = 2 :=
  have h := service_while_running
    (run idleEmpty [Op.cue Clip.HEADING, Op.cue (Clip.speak 7), Op.service true true])
    false true (by decide)
  have h2 := (h.2.2.2.2.2.2 rfl).2 true true (by decide)
  ⟨by decide, (h.2.2.2.2.2.2 rfl).1, h2.1.trans (by decide), h2.2.2.1.trans (by decide)⟩

/-- C10: when `begin` fails for the clip `serviceQueue` takes off the queue, the
decoder is left not running, the head has advanced and the length is one less, the
tail and the buffer are unchanged (the clip is not put back), and the next
`serviceQueue` call opens the clip in the following slot if one is waiting and does
nothing at all if none is. -/
theorem begin_failure_drops_clip (s : Announcer) (l : Bool) (hr : s.running = false)
    (hlen : 0 < s.announcementQueueLength) :
    (serviceQueue s l false).running = false ∧
    (serviceQueue s l false).headQueueIndex = Int.tmod (s.headQueueIndex + 1) 128 ∧
    (0 ≤ s.headQueueIndex →
      (serviceQueue s l false).headQueueIndex = (s.headQueueIndex + 1) % 128) ∧
    (serviceQueue s l false).announcementQueueLength = s.announcementQueueLength - 1 ∧
    (serviceQueue s l false).tailQueueIndex = s.tailQueueIndex ∧
    (serviceQueue s l false).announcementQueue = s.announcementQueue ∧
    (∀ l2 b2 : Bool, 1 < s.announcementQueueLength →
      (serviceQueue (serviceQueue s l false) l2 b2).file.name =
          s.announcementQueue (Int.tmod (s.headQueueIndex + 1) 128) ∧
        (serviceQueue (serviceQueue s l false) l2 b2).events =
          (serviceQueue s l false).events ++
            [Event.deleteFile (serviceQueue s l false).file,
              Event.newFile
                { serial := s.allocated + 1,
                  name := s.announcementQueue (Int.tmod (s.headQueueIndex + 1) 128) },
              Event.begin s.id3 b2] ∧
        (serviceQueue (serviceQueue s l false) l2 b2).headQueueIndex =
          Int.tmod (Int.tmod (s.headQueueIndex + 1) 128 + 1) 128 ∧
        (serviceQueue (serviceQueue s l false) l2 b2).announcementQueueLength =
          s.announcementQueueLength - 2) ∧
    (∀ l2 b2 : Bool, s.announcementQueueLength = 1 →
      serviceQueue (serviceQueue s l false) l2 b2 = serviceQueue s l false) := by
  rw [service_dequeue s l false hr hlen]
  refine ⟨rfl, rfl, ?_, rfl, rfl, rfl, ?_, ?_⟩
  · intro h0
    exact @Int.tmod_eq_emod (s.headQueueIndex + 1) 128 (by omega) (by omega)
  · intro l2 b2 h1
    rw [service_dequeue _ l2 b2 rfl (by simp only; omega)]
    refine ⟨rfl, rfl, rfl, ?_⟩
    simp only
    omega
  · intro l2 b2 h1
    exact service_nothing _ l2 b2 rfl (by simp only; omega)

/-- Two clips wait and the decoder is idle; `begin` fails for the first, and the next
call opens the second. -/
theorem begin_failure_drops_clip_witness :
    ((cueAll idleEmpty [Clip.HEADING, Clip.speak 7]).running = false ∧
      0 < (cueAll idleEmpty [Clip.HEADING, Clip.speak 7]).announcementQueueLength) ∧
    (serviceQueue (cueAll idleEmpty [Clip.HEADING, Clip.speak 7]) true false).running
        = false ∧
    (serviceQueue (cueAll idleEmpty [Clip.HEADING, Clip.speak 7]) true
        false).announcementQueueLength = 1 ∧
    (serviceQueue (serviceQueue (cueAll idleEmpty [Clip.HEADING, Clip.speak 7]) true false)
        true true).file.name = Clip.speak 7 :=
  have h := begin_failure_drops_clip (cueAll idleEmpty [Clip.HEADING, Clip.speak 7]) true
    (by decide) (by decide)
  ⟨⟨by decide, by decide⟩, h.1, h.2.2.2.1.trans (by decide),
    ((h.2.2.2.2.2.2.1 true true (by decide)).1).trans (by decide)⟩

/-! ## More on the queue -/

theorem run_service_nothing (s : Announcer) (hr : s.running = false)
    (hlen : s.announcementQueueLength = 0) :
    ∀ calls : List (Bool × Bool),
      run s (calls.map fun lb => Op.service lb.1 lb.2) = s := by
  intro calls
  induction calls with
  | nil => rfl
  | cons lb rest ih =>
    simp only [List.map_cons, run, List.foldl_cons, step]
    rw [service_nothing s lb.1 lb.2 hr (by omega)]
    exact ih

/-- C11: with an empty queue and the decoder not running, any number of consecutive
`serviceQueue` calls leaves the announcer exactly as it was: head, tail, length and
buffer are unchanged, nothing is opened and the decoder is not started. -/
theorem service_empty_idle (s : Announcer) (hr : s.running = false)
    (hlen : s.announcementQueueLength = 0) (calls : List (Bool × Bool)) :
    run s (calls.map fun lb => Op.service lb.1 lb.2) = s ∧
      (run s (calls.map fun lb => Op.service lb.1 lb.2)).running = false ∧
      (run s (calls.map fun lb => Op.service lb.1 lb.2)).events = s.events := by
  rw [run_service_nothing s hr hlen calls]
  exact ⟨rfl, hr, rfl⟩

/-- Three calls in a row on the empty idle announcer. -/
theorem service_empty_idle_witness :
    (idleEmpty.running = false ∧ idleEmpty.announcementQueueLength = 0) ∧
    run idleEmpty [Op.service true true, Op.service false true, Op.service true false] =
      idleEmpty :=
  ⟨⟨rfl, rfl⟩,
    (service_empty_idle idleEmpty rfl rfl [(true, true), (false, true), (true, false)]).1⟩

theorem run_replicate_cue (c : Clip) :
    ∀ (n : Nat) (s : Announcer), 0 ≤ s.announcementQueueLength →
      s.announcementQueueLength + n ≤ 2147483647 →
      (run s (List.replicate n (Op.cue c))).announcementQueueLength =
        s.announcementQueueLength + n := by
  intro n
  induction n with
  | zero => intro s _ _; simp [run]
  | succ n ih =>
    intro s hs0 hs
    push_cast at hs
    have hl := cue_length_of_fits s c (by omega) (by omega)
    have h1 := ih (cueAnnouncement s c) (by rw [hl]; omega) (by rw [hl]; omega)
    simp only [run, List.replicate_succ, List.foldl_cons, step] at h1 ⊢
    rw [h1, hl]
    push_cast; ring

/-- On a consistent queue that holds 128 clips, `cueAnnouncement` writes over the
oldest one. -/
theorem cue_full (s : Announcer) (m : Clip) (hs : Consistent s)
    (hfull : s.announcementQueueLength = 128) :
    s.tailQueueIndex = s.headQueueIndex ∧
    (pending s)[0]? = some (s.announcementQueue s.headQueueIndex) ∧
    (cueAnnouncement s m).announcementQueue s.headQueueIndex = m ∧
    (∀ j, j ≠ s.headQueueIndex →
      (cueAnnouncement s m).announcementQueue j = s.announcementQueue j) ∧
    (cueAnnouncement s m).headQueueIndex = s.headQueueIndex ∧
    (cueAnnouncement s m).tailQueueIndex = (s.tailQueueIndex + 1) % 128 ∧
    (cueAnnouncement s m).announcementQueueLength = 129 ∧
    (cueAnnouncement s m).events = s.events ++ [Event.errorCode300] := by
  obtain ⟨h0, h1, _, _, ht⟩ := hs
  have hth : s.tailQueueIndex = s.headQueueIndex := by omega
  have hover : s.announcementQueueLength + 1 > ANNOUNCEMENT_BUFFER_LENGTH := by
    unfold ANNOUNCEMENT_BUFFER_LENGTH; omega
  have hcue : cueAnnouncement s m =
      { s with
        announcementQueue := Function.update s.announcementQueue s.tailQueueIndex m
        announcementQueueLength := s.announcementQueueLength + 1
        tailQueueIndex := (s.tailQueueIndex + 1) % 128
        events := s.events ++ [Event.errorCode300] } := by
    unfold cueAnnouncement
    have hfit := toInt32_of_fits (s.announcementQueueLength + 1) (by omega) (by omega)
    simp only [hfit, hover, if_true, tmod_succ_128 _ (show 0 ≤ s.tailQueueIndex by omega)]
  refine ⟨hth, ?_, ?_, ?_, ?_, ?_, ?_, ?_⟩
  · have hn : s.announcementQueueLength.toNat = 127 + 1 := by omega
    unfold pending
    rw [hn, List.range_succ_eq_map, List.map_cons, List.getElem?_cons_zero]
    simp only [Nat.cast_zero, add_zero, Int.emod_eq_of_lt h0 h1]
  · rw [hcue, ← hth]; exact Function.update_same _ _ _
  · intro j hj
    rw [hcue]
    exact Function.update_noteq (by rw [hth]; exact hj) _ _
  · rw [hcue]
  · rw [hcue]
  · rw [hcue]; simp only; omega
  · rw [hcue]

/-- C12: in a state reached from the empty queue without an overflow and holding 128
clips, `cueAnnouncement(m)` overwrites the oldest unplayed clip: the tail is at the
head, `m` is stored in the head slot, every other slot and the head index are
unchanged, the tail advances modulo 128 and the length becomes 129; the overrun is
only reported, after the write. -/
theorem cue_at_capacity (buffer : Int → Clip) (file id3 : FileSource) (running : Bool)
    (allocated : Nat) (ops : List Op) (s : Announcer) (m : Clip)
    (hs : s = run (Announcer.init buffer file id3 running allocated) ops)
    (h : ∀ k, (run (Announcer.init buffer file id3 running allocated)
      (ops.take k)).announcementQueueLength ≤ 128)
    (hfull : s.announcementQueueLength = 128) :
    s.tailQueueIndex = s.headQueueIndex ∧
    (pending s)[0]? = some (s.announcementQueue s.headQueueIndex) ∧
    (cueAnnouncement s m).announcementQueue s.headQueueIndex = m ∧
    (∀ j, j ≠ s.headQueueIndex →
      (cueAnnouncement s m).announcementQueue j = s.announcementQueue j) ∧
    (cueAnnouncement s m).headQueueIndex = s.headQueueIndex ∧
    (cueAnnouncement s m).tailQueueIndex = (s.tailQueueIndex + 1) % 128 ∧
    (cueAnnouncement s m).announcementQueueLength = 129 ∧
    (cueAnnouncement s m).events = s.events ++ [Event.errorCode300] := by
  have hc : Consistent s := by
    rw [hs]
    exact (run_fifo ops _ (consistent_init buffer file id3 running allocated) h).1
  exact cue_full s m hc hfull

/-- The queue filled by 128 calls, then one more. -/
theorem cue_at_capacity_witness :
    (∀ k, (run idleEmpty
      ((List.replicate 128 (Op.cue Clip.HEADING)).take k)).announcementQueueLength ≤ 128) ∧
    (run idleEmpty (List.replicate 128 (Op.cue Clip.HEADING))).announcementQueueLength = 128 ∧
    (cueAnnouncement (run idleEmpty (List.replicate 128 (Op.cue Clip.HEADING)))
      Clip.KNOTS).announcementQueueLength = 129 ∧
    (cueAnnouncement (run idleEmpty (List.replicate 128 (Op.cue Clip.HEADING)))
      Clip.KNOTS).announcementQueue
        (run idleEmpty (List.replicate 128 (Op.cue Clip.HEADING))).headQueueIndex =
      Clip.KNOTS := by
  have hk : ∀ k, (run idleEmpty
      ((List.replicate 128 (Op.cue Clip.HEADING)).take k)).announcementQueueLength ≤ 128 := by
    intro k
    rw [List.take_replicate, run_replicate_cue Clip.HEADING (min k 128) idleEmpty
      (by simp only [idleEmpty, Announcer.init]; omega)
      (by simp only [idleEmpty, Announcer.init]; omega)]
    simp only [idleEmpty, Announcer.init]; omega
  have hfull : (run idleEmpty
      (List.replicate 128 (Op.cue Clip.HEADING))).announcementQueueLength = 128 := by
    rw [run_replicate_cue Clip.HEADING 128 idleEmpty
      (by simp only [idleEmpty, Announcer.init]; omega)
      (by simp only [idleEmpty, Announcer.init]; omega)]
    simp only [idleEmpty, Announcer.init]; omega
  have h := cue_at_capacity (fun _ => Clip.KNOTS) ⟨0, Clip.KNOTS⟩ ⟨0, Clip.KNOTS⟩ false 1
    (List.replicate 128 (Op.cue Clip.HEADING))
    (run idleEmpty (List.replicate 128 (Op.cue Clip.HEADING))) Clip.KNOTS rfl hk hfull
  exact ⟨hk, hfull, h.2.2.2.2.2.2.1, h.2.2.1⟩

/-! ## The indices and the length in every reachable state -/

/-- C17: the announcer is started with `begin(a)`, clip `c` is enqueued, the first
announcement ends, and the next `serviceQueue` call dequeues `c`.  The file source is
replaced by a new one that reads `c`, but the ID3 source handed to `mp3->begin` is
the one `begin` built: it still wraps the first file source, which reads `a` and has
just been deleted. -/
theorem id3_wraps_first_file (buffer : Int → Clip) (file id3 : FileSource) (running : Bool)
    (allocated : Nat) (a c : Clip) (b l b2 : Bool) :
    (run (Announcer.begin (Announcer.init buffer file id3 running allocated) a true)
        [Op.cue c, Op.service false b, Op.service l b2]).file =
      { serial := allocated + 1, name := c } ∧
    (run (Announcer.begin (Announcer.init buffer file id3 running allocated) a true)
        [Op.cue c, Op.service false b, Op.service l b2]).id3 =
      { serial := allocated, name := a } ∧
    (run (Announcer.begin (Announcer.init buffer file id3 running allocated) a true)
        [Op.cue c, Op.service false b, Op.service l b2]).events =
      [Event.newFile { serial := allocated, name := a },
        Event.begin { serial := allocated, name := a } true,
        Event.loop false, Event.stop,
        Event.deleteFile { serial := allocated, name := a },
        Event.newFile { serial := allocated + 1, name := c },
        Event.begin { serial := allocated, name := a } b2] := by
  simp [run, step, Announcer.begin, Announcer.init, cueAnnouncement, serviceQueue,
    ANNOUNCEMENT_BUFFER_LENGTH, toInt32]

/-! ## Values with more integer digits than requested -/

theorem sum_range_update (b : Int → ℚ) (N : Nat) (idx : Int) (x : ℚ) (h0 : 0 ≤ idx)
    (h1 : idx < (N : Int)) :
    ∑ i in Finset.range N, Function.update b idx x (i : Int) =
      (∑ i in Finset.range N, b (i : Int)) - b idx + x := by
  obtain ⟨k, hk⟩ := Int.eq_ofNat_of_zero_le h0
  subst hk
  have hk : k ∈ Finset.range N := Finset.mem_range.mpr (by omega)
  have hfun : (fun i : Nat => Function.update b (k : Int) x (i : Int)) =
      Function.update (fun i : Nat => b (i : Int)) k x := by
    funext i
    by_cases hi : i = k
    · subst hi; simp
    · rw [Function.update_noteq hi, Function.update_noteq (by omega)]
  rw [hfun, Finset.sum_update_of_mem hk, ← Finset.add_sum_erase _ _ hk]
  simp only [Finset.sdiff_singleton_eq_erase]
  ring

/-- One `updateRav` call slides the window by one reading and returns the sum of
the new window over the window length. -/
theorem windowed_update (r : RollingAverage) (N : Nat) (w : List ℚ) (x : ℚ) (hN : 1 ≤ N)
    (h : Windowed r N w) :
    Windowed (r.updateRav x).1 N (w.tail ++ [x]) ∧
      (r.updateRav x).2 = (w.tail ++ [x]).sum / (N : ℚ) := by
  obtain ⟨hlen, i0, i1, hw, htot, halign, hsum⟩ := h
  cases w with
  | nil => simp at hw; omega
  | cons w0 wt =>
    have hNpos : (0 : Int) < (N : Int) := by omega
    have hwt : wt.length + 1 = N := by simpa using hw
    have hb0 : r.buffer r.index = w0 := by
      have := halign 0 (by omega)
      simp only [List.getElem?_cons_zero, Nat.cast_zero, add_zero,
        Int.emod_eq_of_lt i0 i1, Option.some.injEq] at this
      exact this.symm
    have hidx : Int.tmod (r.index + 1) (N : Int) = (r.index + 1) % (N : Int) :=
      Int.tmod_eq_emod (by omega) (by omega)
    have hupd : r.updateRav x =
        ({ r with
            rollingTotal := r.rollingTotal - r.buffer r.index + x
            buffer := Function.update r.buffer r.index x
            index := (r.index + 1) % (N : Int) },
          (r.rollingTotal - r.buffer r.index + x) / (N : ℚ)) := by
      unfold RollingAverage.updateRav
      simp only [hlen, hidx, Int.cast_natCast]
    have htot2 : r.rollingTotal - r.buffer r.index + x = (wt ++ [x]).sum := by
      rw [htot, hb0]
      simp only [List.sum_cons, List.sum_append, List.sum_nil, add_zero]
      ring
    rw [hupd]
    simp only [List.tail_cons]
    refine ⟨⟨hlen, Int.emod_nonneg _ (by omega), Int.emod_lt_of_pos _ hNpos, ?_, htot2, ?_, ?_⟩,
      by rw [htot2]⟩
    · simp only [List.length_append, List.length_cons, List.length_nil]
      omega
    · intro j hj
      simp only
      have hshift : ((r.index + 1) % (N : Int) + (j : Int)) % (N : Int) =
          (r.index + ((j + 1 : Nat) : Int)) % (N : Int) := by
        rw [Int.emod_add_emod]
        congr 1
        push_cast; ring
      rw [hshift]
      by_cases hlast : j < wt.length
      · rw [List.getElem?_append_left hlast]
        have hprev := halign (j + 1) (by omega)
        rw [List.getElem?_cons_succ] at hprev
        rw [hprev]
        have hne : (r.index + ((j + 1 : Nat) : Int)) % (N : Int) ≠ r.index := by
          intro he
          have h2 : (r.index + ((j + 1 : Nat) : Int)) % (N : Int) = r.index % (N : Int) := by
            rw [he, Int.emod_eq_of_lt i0 i1]
          rw [Int.emod_eq_emod_iff_emod_sub_eq_zero] at h2
          have h3 : (r.index + ((j + 1 : Nat) : Int) - r.index) = ((j + 1 : Nat) : Int) := by
            ring
          rw [h3, Int.emod_eq_of_lt (by omega) (by omega)] at h2
          omega
        rw [Function.update_noteq hne]
      · have hj' : j = wt.length := by omega
        have hidx2 : (r.index + ((j + 1 : Nat) : Int)) % (N : Int) = r.index := by
          have : (r.index + ((j + 1 : Nat) : Int)) = r.index + (N : Int) := by
            rw [hj', hwt]
          rw [this, Int.add_emod_self, Int.emod_eq_of_lt i0 i1]
        rw [hidx2, Function.update_same, hj']
        simp
    · simp only
      rw [sum_range_update r.buffer N r.index x i0 i1, ← hsum]

theorem windowed_feed (N : Nat) (hN : 1 ≤ N) (xs : List ℚ) :
    ∀ (r : RollingAverage) (w : List ℚ), Windowed r N w →
      Windowed (r.feed xs) N ((w ++ xs).drop xs.length) := by
  induction xs with
  | nil => intro r w h; simpa [RollingAverage.feed] using h
  | cons x xs ih =>
    intro r w h
    have hstep := (windowed_update r N w x hN h).1
    have := ih (r.updateRav x).1 (w.tail ++ [x]) hstep
    have hw : w.length = N := h.2.2.2.1
    cases w with
    | nil => simp at hw; omega
    | cons w0 wt =>
      simp only [List.tail_cons, List.append_assoc, List.singleton_append] at this
      simpa [RollingAverage.feed] using this

theorem windowed_construct (memory : Int → ℚ) (N : Nat) (hN1 : 1 ≤ N) (hN50 : N ≤ 50)
    (hzero : ∀ i : Int, 0 ≤ i → i < (N : Int) → memory i = 0) :
    Windowed (RollingAverage.construct memory (N : Int)) N (List.replicate N 0) := by
  have hbuf : ∀ i : Int, 0 ≤ i → i < (N : Int) →
      (RollingAverage.construct memory (N : Int)).buffer i = 0 := by
    intro i h0 h1
    simp only [RollingAverage.construct, MAX_BUFFER_SIZE]
    rw [Function.update_noteq (by omega)]
    exact hzero i h0 h1
  refine ⟨rfl, le_refl _, by simp only [RollingAverage.construct]; omega, by simp, ?_, ?_, ?_⟩
  · simp [RollingAverage.construct]
  · intro j hj
    have hNpos : (0 : Int) < (N : Int) := by omega
    rw [hbuf _ (Int.emod_nonneg _ (by omega)) (Int.emod_lt_of_pos _ hNpos)]
    simp [List.getElem?_replicate, hj]
  · rw [Finset.sum_eq_zero]
    · rfl
    · intro i hi
      exact hbuf i (by omega) (by have := Finset.mem_range.mp hi; omega)

theorem sum_drop_zeros (N k : Nat) (L : List ℚ) :
    (N ≤ k → ((List.replicate N (0 : ℚ) ++ L).drop k).sum = (L.drop (k - N)).sum) ∧
    (k < N → ((List.replicate N (0 : ℚ) ++ L).drop k).sum = L.sum) := by
  constructor
  · intro h
    rw [List.drop_append_eq_append_drop, List.length_replicate,
      List.drop_eq_nil_of_le (by simp [h]), List.nil_append]
  · intro h
    rw [List.drop_append_eq_append_drop, List.length_replicate]
    have : k - N = 0 := by omega
    rw [this, List.drop_zero, List.sum_append, List.drop_replicate, List.sum_replicate]
    simp

/-- C18: a `RollingAverage` of window length `N`, `1 ≤ N ≤ 50`, whose buffer elements
`0..N-1` are zero at construction, is fed `x_1 .. x_k` in exact arithmetic.  The
`k`-th call of `updateRav` returns the sum of the last `N` values over `N` when
`k ≥ N` and the sum of all `k` values over `N` when `k < N`; and after the call
`rollingTotal` is the sum of `buffer[0..N-1]`. -/
theorem rolling_average (memory : Int → ℚ) (N : Nat) (hN1 : 1 ≤ N) (hN50 : N ≤ 50)
    (hzero : ∀ i : Int, 0 ≤ i → i < (N : Int) → memory i = 0) (xs : List ℚ) (x : ℚ) :
    (N ≤ xs.length + 1 →
      (((RollingAverage.construct memory (N : Int)).feed xs).updateRav x).2 =
        ((xs ++ [x]).drop (xs.length + 1 - N)).sum / (N : ℚ)) ∧
    (xs.length + 1 < N →
      (((RollingAverage.construct memory (N : Int)).feed xs).updateRav x).2 =
        (xs ++ [x]).sum / (N : ℚ)) ∧
    (((RollingAverage.construct memory (N : Int)).feed xs).updateRav x).1.rollingTotal =
      ∑ i in Finset.range N,
        (((RollingAverage.construct memory (N : Int)).feed xs).updateRav x).1.buffer (i : Int) := by
  have h0 := windowed_construct memory N hN1 hN50 hzero
  have h1 := windowed_feed N hN1 xs _ _ h0
  obtain ⟨h2, hret⟩ := windowed_update _ N _ x hN1 h1
  have hwin : ((List.replicate N (0 : ℚ) ++ xs).drop xs.length).tail ++ [x] =
      (List.replicate N (0 : ℚ) ++ (xs ++ [x])).drop (xs.length + 1) := by
    have hle : xs.length + 1 ≤ (List.replicate N (0 : ℚ) ++ xs).length := by
      rw [List.length_append, List.length_replicate]
      omega
    have e : (List.replicate N (0 : ℚ) ++ xs ++ [x]).drop (xs.length + 1) =
        (List.replicate N (0 : ℚ) ++ xs).drop (xs.length + 1) ++ [x] :=
      List.drop_append_of_le_length hle
    rw [List.tail_drop, ← List.append_assoc, e]
  rw [hwin] at hret
  obtain ⟨ha, hb⟩ := sum_drop_zeros N (xs.length + 1) (xs ++ [x])
  refine ⟨?_, ?_, h2.2.2.2.2.2.2⟩
  · intro h; rw [hret, ha h]
  · intro h; rw [hret, hb h]

/-- A window of 3 fed 3, 6, 9 and then 12: the fourth call returns (6 + 9 + 12) / 3. -/
theorem rolling_average_witness :
    (1 ≤ 3 ∧ 3 ≤ 50 ∧ ∀ i : Int, 0 ≤ i → i < ((3 : Nat) : Int) → (fun _ => (0 : ℚ)) i = 0) ∧
    (((RollingAverage.construct (fun _ => 0) ((3 : Nat) : Int)).feed [3, 6, 9]).updateRav 12).2
      = 9 := by
  have h := (rolling_average (fun _ => 0) 3 (by norm_num) (by norm_num) (fun _ _ _ => rfl)
    [3, 6, 9] 12).1 (by norm_num)
  refine ⟨⟨by norm_num, by norm_num, fun _ _ _ => rfl⟩, ?_⟩
  rw [h]
  norm_num

end AudioNav2
